import Mathlib

/-
Verification of the market mechanism of the accountability-agent backend
(src/backend/main.py), shallowly embedded in Lean 4.

Modelling conventions:
* Python floats are modelled as rationals (ℚ).  All prices appearing in the
  claims are exact decimal values, so rational arithmetic coincides with the
  float evaluations the claims are about.
* A Python dict keyed by str(goal_id) is modelled as an association list
  keyed by the goal id; d.get(k, 0) takes the first matching entry (default
  0) and d[k] = v overwrites in place or appends, like the dict.
* The Redis agent store is modelled as a list of Agent records keyed by the
  id field: get_agent returns the first record with the id, save_agent
  overwrites the record in place (or appends it).  Each get_agent call
  yields an independent copy, exactly as json.loads does in the source.
* Python sorted(...) is a stable sort, and a stable sort by a total
  preorder has a unique result; List.insertionSort is also stable, so it is
  a faithful model of the two sorts in match_orders (which sort only by
  price, with no further tie-break).
-/

/-- AgentSpread (main.py): agent id plus quoted buy and sell price. -/
structure AgentSpread where
  agent_id : Nat
  buy_price : ℚ
  sell_price : ℚ
  deriving DecidableEq, Inhabited

/-- A trade tuple (buyer_agent_id, seller_agent_id, price, quantity) as
produced by match_orders / auction_fallback. -/
structure TradeTuple where
  buyer : Nat
  seller : Nat
  price : ℚ
  qty : ℚ
  deriving DecidableEq, Inhabited

/-- Agent (main.py): id, name, cash balance and per-goal token holdings. -/
structure Agent where
  id : Nat
  name : String
  cash_balance : ℚ
  token_holdings : List (Nat × ℚ)
  deriving DecidableEq, Inhabited

/-- Goal (main.py): the pydantic Goal model. -/
structure Goal where
  id : Nat
  description : String
  target_date : String
  created_at : Option String
  status : String
  payout_amount : Nat
  outcome : Option String
  base_price : Option ℚ
  deriving DecidableEq, Inhabited

/-- dict.get(str(goal_id), 0) on a token_holdings dict. -/
def dget : List (Nat × ℚ) → Nat → ℚ
  | [], _ => 0
  | e :: d, k => if e.1 = k then e.2 else dget d k

/-- dict[str(goal_id)] = v on a token_holdings dict: overwrite the existing
entry in place, else append. -/
def dset : List (Nat × ℚ) → Nat → ℚ → List (Nat × ℚ)
  | [], k, v => [(k, v)]
  | e :: d, k, v => if e.1 = k then (k, v) :: d else e :: dset d k v

/-- get_agent (main.py): fetch the agent record with the given id. -/
def get_agent : List Agent → Nat → Option Agent
  | [], _ => none
  | a :: s, i => if a.id = i then some a else get_agent s i

/-- save_agent (main.py): redis SET agent:{id} — overwrite the record with
the same id, or add it. -/
def save_agent : List Agent → Agent → List Agent
  | [], ag => [ag]
  | a :: s, ag => if a.id = ag.id then ag :: s else a :: save_agent s ag

/-- Sort key of sorted(spreads, key=buy_price, reverse=True): stable
descending order on buy_price. -/
def buyDesc (a b : AgentSpread) : Prop := b.buy_price ≤ a.buy_price

/-- Sort key of sorted(spreads, key=sell_price): stable ascending order on
sell_price. -/
def sellAsc (a b : AgentSpread) : Prop := a.sell_price ≤ b.sell_price

instance : DecidableRel buyDesc :=
  fun a b => inferInstanceAs (Decidable (b.buy_price ≤ a.buy_price))

instance : DecidableRel sellAsc :=
  fun a b => inferInstanceAs (Decidable (a.sell_price ≤ b.sell_price))

instance : IsTotal AgentSpread buyDesc :=
  ⟨fun a b => le_total b.buy_price a.buy_price⟩

instance : IsTotal AgentSpread sellAsc :=
  ⟨fun a b => le_total a.sell_price b.sell_price⟩

instance : IsTrans AgentSpread buyDesc :=
  ⟨fun _ _ _ h1 h2 => le_trans h2 h1⟩

instance : IsTrans AgentSpread sellAsc :=
  ⟨fun _ _ _ h1 h2 => le_trans h1 h2⟩

/-- buy_orders = sorted(spreads, key=buy_price, reverse=True). -/
def sortBuys (l : List AgentSpread) : List AgentSpread := l.insertionSort buyDesc

/-- sell_orders = sorted(spreads, key=sell_price). -/
def sortSells (l : List AgentSpread) : List AgentSpread := l.insertionSort sellAsc

/-- The index walk of match_orders (main.py lines 312-327): while both
lists have entries left and the best bid meets the best ask, emit a trade
at the sell price and advance both indices. -/
def matchLoop : List AgentSpread → List AgentSpread → List TradeTuple
  | b :: bs, s :: ss =>
    if s.sell_price ≤ b.buy_price then
      ⟨b.agent_id, s.agent_id, s.sell_price, 1⟩ :: matchLoop bs ss
    else []
  | _, _ => []

/-- match_orders (main.py lines 291-327): return no trades on an empty
spread list, else run the index walk over the two sorted copies. -/
def match_orders : List AgentSpread → List TradeTuple
  | [] => []
  | x :: xs => matchLoop (sortBuys (x :: xs)) (sortSells (x :: xs))

/-- Python max over a nonempty list (0 on [] — unreachable in use). -/
def listMax : List ℚ → ℚ
  | [] => 0
  | x :: xs => xs.foldl max x

/-- Python min over a nonempty list (0 on [] — unreachable in use). -/
def listMin : List ℚ → ℚ
  | [] => 0
  | x :: xs => xs.foldl min x

/-- Crossed volume at a candidate price (main.py lines 362-367):
min of the number of buyers with buy_price ≥ p and sellers with
sell_price ≤ p. -/
def volumeAt (spreads : List AgentSpread) (p : ℚ) : Nat :=
  min (spreads.filter (fun s => p ≤ s.buy_price)).length
      (spreads.filter (fun s => s.sell_price ≤ p)).length

/-- The candidate prices scanned by the while loop of auction_fallback
(main.py lines 360-373): lowest_sell, lowest_sell - 0.05, ... while the
candidate is ≥ highest_buy - 0.01. -/
def fallbackCandidates (lowest_sell highest_buy : ℚ) : List ℚ :=
  if lowest_sell < highest_buy - 1/100 then []
  else
    let n : Nat := (⌊(lowest_sell - (highest_buy - 1/100)) / (1/20)⌋).toNat + 1
    (List.range n).map (fun k : Nat => lowest_sell - (1/20) * (k : ℚ))

/-- The best_price / best_volume accumulation of auction_fallback: update
only on a strictly larger volume, so the first (highest) candidate wins
ties. -/
def bestClearing (spreads : List AgentSpread) (cands : List ℚ) : Option ℚ × Nat :=
  cands.foldl
    (fun best p =>
      if best.2 < volumeAt spreads p then (some p, volumeAt spreads p) else best)
    (none, 0)

/-- auction_fallback (main.py lines 329-393). -/
def auction_fallback (spreads : List AgentSpread) : List TradeTuple :=
  if spreads.length < 2 then []
  else
    let highest_buy := listMax (spreads.map (fun s => s.buy_price))
    let lowest_sell := listMin (spreads.map (fun s => s.sell_price))
    if lowest_sell ≤ highest_buy then []
    else
      let best := bestClearing spreads (fallbackCandidates lowest_sell highest_buy)
      match best.1 with
      | none => []
      | some p =>
        if best.2 = 0 then []
        else
          let buyers := sortBuys (spreads.filter (fun s => p ≤ s.buy_price))
          let sellers := sortSells (spreads.filter (fun s => s.sell_price ≤ p))
          (List.range (min buyers.length sellers.length)).map
            (fun i => ⟨(buyers.getD i default).agent_id,
                       (sellers.getD i default).agent_id, p, 1⟩)

/-- The trade-selection branch of conduct_auction (main.py lines 924-933):
Stage-1 matching, with the Stage-2 fallback only when Stage 1 produced
nothing and this is the initial event (update_id = 0). -/
def conductTrades (update_id : Nat) (spreads : List AgentSpread) : List TradeTuple :=
  let trades := match_orders spreads
  if trades = [] ∧ update_id = 0 then auction_fallback spreads else trades

/-- Market price computation of conduct_auction (main.py lines 942-945):
arithmetic mean of the executed trade prices, none when no trades. -/
def marketPrice : List TradeTuple → Option ℚ
  | [] => none
  | t :: ts => some (((t :: ts).map (fun t => t.price)).sum / (t :: ts).length)

/-- Writing the discovered market price onto the goal (main.py lines
950-956). -/
def recordMarketPrice (goal : Goal) (trades : List TradeTuple) : Goal :=
  match marketPrice trades with
  | none => goal
  | some p => { goal with base_price := some p }

/-- The spread-construction tail of _process_agent_analysis (main.py lines
585-614): requires a parsed buy price, caps it at the agent cash when the
agent record was found, and in an initial-auction event (update_id = 0)
emits the spread with sell_price = 0, else requires a parsed sell price. -/
def mkSpread (update_id agent_id : Nat) (buy_match sell_match : Option ℚ)
    (cash : Option ℚ) : Option AgentSpread :=
  match buy_match with
  | none => none
  | some braw =>
    let buy := match cash with
      | some c => if c < braw then c else braw
      | none => braw
    if update_id = 0 then some ⟨agent_id, buy, 0⟩
    else
      match sell_match with
      | none => none
      | some s => some ⟨agent_id, buy, s⟩

/-- One iteration of the settlement loop (main.py lines 401-447): load
buyer and seller (as independent copies), skip the trade if either is
missing, apply the cash and holdings deltas, then save the buyer followed
by the seller; a Trade record is appended exactly when the trade settled. -/
def settle_one (goal_id : Nat) (store : List Agent) (t : TradeTuple) :
    List Agent × Option TradeTuple :=
  match get_agent store t.buyer, get_agent store t.seller with
  | some buyer, some seller =>
    let amt := t.price * t.qty
    let buyer2 : Agent :=
      { buyer with
        cash_balance := buyer.cash_balance - amt
        token_holdings :=
          dset buyer.token_holdings goal_id (dget buyer.token_holdings goal_id + t.qty) }
    let seller2 : Agent :=
      { seller with
        cash_balance := seller.cash_balance + amt
        token_holdings :=
          dset seller.token_holdings goal_id (dget seller.token_holdings goal_id - t.qty) }
    (save_agent (save_agent store buyer2) seller2, some t)
  | _, _ => (store, none)

/-- settle_trades (main.py lines 395-447): fold the settlement step over
the trade list, collecting the appended Trade records. -/
def settle_trades (goal_id : Nat) : List TradeTuple → List Agent → List Agent × List TradeTuple
  | [], store => (store, [])
  | t :: ts, store =>
    let step := settle_one goal_id store t
    let rest := settle_trades goal_id ts step.1
    (rest.1, step.2.toList ++ rest.2)

/-- Per-agent body of resolve_goal_settlement (main.py lines 978-999):
skip a zero position, else credit the P&L and zero the position. -/
def resolveAgent (goal_id : Nat) (outcome : String) (a : Agent) : Agent :=
  let pos := dget a.token_holdings goal_id
  if pos = 0 then a
  else
    let pnl := if outcome = "success" then pos * 100 else -pos * 100
    { a with
      cash_balance := a.cash_balance + pnl
      token_holdings := dset a.token_holdings goal_id 0 }

/-- resolve_goal_settlement (main.py lines 966-1006): the loop loads every
agent once, updates it and saves it back under its own id, which on an
id-keyed store is a pointwise map. -/
def resolve_goal_settlement (goal_id : Nat) (outcome : String)
    (store : List Agent) : List Agent :=
  store.map (resolveAgent goal_id outcome)

/-- get_goal (main.py): fetch the goal record with the given id. -/
def get_goal : List Goal → Nat → Option Goal
  | [], _ => none
  | g :: s, i => if g.id = i then some g else get_goal s i

/-- save_goal (main.py): overwrite the goal record with the same id, or
add it. -/
def save_goal : List Goal → Goal → List Goal
  | [], g => [g]
  | h :: s, g => if h.id = g.id then g :: s else h :: save_goal s g

/-- The store state the resolve endpoint touches: goals and agents. -/
structure SysState where
  goals : List Goal
  agents : List Agent
  deriving DecidableEq

/-- resolve_goal endpoint (main.py lines 1147-1171): 404 when the goal is
missing, 400 on an invalid outcome, 400 when already resolved — each
before any mutation — else mark resolved and settle all positions. -/
def resolve_goal (st : SysState) (goal_id : Nat) (outcome : String) :
    Except Nat Goal × SysState :=
  match get_goal st.goals goal_id with
  | none => (Except.error 404, st)
  | some goal =>
    if ¬(outcome = "success" ∨ outcome = "failure") then (Except.error 400, st)
    else if goal.status = "resolved" then (Except.error 400, st)
    else
      let goal2 := { goal with status := "resolved", outcome := some outcome }
      (Except.ok goal2,
        { goals := save_goal st.goals goal2
          agents := resolve_goal_settlement goal_id outcome st.agents })

/-- The default agent roster (main.py line 883). -/
def agent_roster : List String := ["Alice", "Bob", "Charlie", "Diana", "Eve"]

/-- The roster block of conduct_auction (main.py lines 879-899): agents are
created only when the store is empty; a short-but-nonempty roster is left
as is (only a warning is printed). -/
def ensure_agents (num_agents : Nat) (store : List Agent) (next_id : Nat) : List Agent :=
  if store.length < num_agents then
    if store.length = 0 then
      (List.range num_agents).map (fun i =>
        { id := next_id + i
          name := "Agent " ++ agent_roster.getD i ""
          cash_balance := 1000
          token_holdings := [] })
    else store
  else store

/-! ### Association-list and store lemmas -/

lemma dget_dset_self (d : List (Nat × ℚ)) (k : Nat) (v : ℚ) :
    dget (dset d k v) k = v := by
  induction d with
  | nil => simp [dget, dset]
  | cons e d ih =>
    by_cases h : e.1 = k
    · simp [dget, dset, h]
    · simp [dget, dset, h, ih]

lemma get_agent_id {st : List Agent} {k : Nat} {a : Agent}
    (h : get_agent st k = some a) : a.id = k := by
  induction st with
  | nil => simp [get_agent] at h
  | cons b s ih =>
    by_cases hb : b.id = k
    · simp [get_agent, hb] at h
      rw [← h]
      exact hb
    · exact ih (by simpa [get_agent, hb] using h)

lemma get_agent_mem {st : List Agent} {k : Nat} {a : Agent}
    (h : get_agent st k = some a) : a ∈ st := by
  induction st with
  | nil => simp [get_agent] at h
  | cons b s ih =>
    by_cases hb : b.id = k
    · simp [get_agent, hb] at h
      simp [← h]
    · exact List.mem_cons_of_mem _ (ih (by simpa [get_agent, hb] using h))

lemma get_save_self (st : List Agent) (x : Agent) :
    get_agent (save_agent st x) x.id = some x := by
  induction st with
  | nil => simp [save_agent, get_agent]
  | cons a s ih =>
    by_cases h : a.id = x.id
    · simp [save_agent, h, get_agent]
    · simp [save_agent, h, get_agent, ih]

lemma get_save_other (st : List Agent) (x : Agent) (k : Nat) (hk : k ≠ x.id) :
    get_agent (save_agent st x) k = get_agent st k := by
  have hxk : ¬ x.id = k := fun h => hk h.symm
  induction st with
  | nil => simp [save_agent, get_agent, hxk]
  | cons a s ih =>
    by_cases h : a.id = x.id
    · have hak : ¬ a.id = k := by rw [h]; exact hxk
      simp [save_agent, h, get_agent, hak, hxk]
    · by_cases hak : a.id = k
      · simp [save_agent, h, get_agent, hak, hxk, hk]
      · simp [save_agent, h, get_agent, hak, hxk, hk, ih]

lemma mem_save_agent {st : List Agent} {x a : Agent}
    (h : a ∈ save_agent st x) : a = x ∨ a ∈ st := by
  induction st with
  | nil => simp [save_agent] at h; exact Or.inl h
  | cons b s ih =>
    by_cases hb : b.id = x.id
    · simp [save_agent, hb] at h
      rcases h with h | h
      · exact Or.inl h
      · exact Or.inr (List.mem_cons_of_mem _ h)
    · simp [save_agent, hb] at h
      rcases h with h | h
      · exact Or.inr (by simp [h])
      · rcases ih h with h2 | h2
        · exact Or.inl h2
        · exact Or.inr (List.mem_cons_of_mem _ h2)

/-! ### Bounds for listMax / listMin -/

lemma foldl_max_init (xs : List ℚ) : ∀ a : ℚ, a ≤ xs.foldl max a := by
  induction xs with
  | nil => intro a; simp
  | cons x xs ih =>
    intro a
    calc a ≤ max a x := le_max_left a x
    _ ≤ xs.foldl max (max a x) := ih (max a x)
    _ = (x :: xs).foldl max a := by simp

lemma mem_le_foldl_max (xs : List ℚ) : ∀ (a x : ℚ), x ∈ xs → x ≤ xs.foldl max a := by
  induction xs with
  | nil => intro a x hx; simp at hx
  | cons y ys ih =>
    intro a x hx
    rcases List.mem_cons.mp hx with h | h
    · subst h
      calc x ≤ max a x := le_max_right a x
      _ ≤ ys.foldl max (max a x) := foldl_max_init ys (max a x)
      _ = (x :: ys).foldl max a := by simp
    · simpa using ih (max a y) x h

lemma le_listMax {l : List ℚ} {x : ℚ} (h : x ∈ l) : x ≤ listMax l := by
  cases l with
  | nil => simp at h
  | cons y ys =>
    rcases List.mem_cons.mp h with h | h
    · subst h; exact foldl_max_init ys x
    · exact mem_le_foldl_max ys y x h

lemma foldl_min_init (xs : List ℚ) : ∀ a : ℚ, xs.foldl min a ≤ a := by
  induction xs with
  | nil => intro a; simp
  | cons x xs ih =>
    intro a
    calc (x :: xs).foldl min a = xs.foldl min (min a x) := by simp
    _ ≤ min a x := ih (min a x)
    _ ≤ a := min_le_left a x

lemma foldl_min_le_mem (xs : List ℚ) : ∀ (a x : ℚ), x ∈ xs → xs.foldl min a ≤ x := by
  induction xs with
  | nil => intro a x hx; simp at hx
  | cons y ys ih =>
    intro a x hx
    rcases List.mem_cons.mp hx with h | h
    · subst h
      calc (x :: ys).foldl min a = ys.foldl min (min a x) := by simp
      _ ≤ min a x := foldl_min_init ys (min a x)
      _ ≤ x := min_le_right a x
    · simpa using ih (min a y) x h

lemma listMin_le {l : List ℚ} {x : ℚ} (h : x ∈ l) : listMin l ≤ x := by
  cases l with
  | nil => simp at h
  | cons y ys =>
    rcases List.mem_cons.mp h with h | h
    · subst h; exact foldl_min_init ys x
    · exact foldl_min_le_mem ys y x h

/-! ### auction_fallback never produces a trade -/

lemma bestClearing_none {spreads : List AgentSpread} {cands : List ℚ}
    (h : ∀ p ∈ cands, volumeAt spreads p = 0) :
    bestClearing spreads cands = (none, 0) := by
  unfold bestClearing
  induction cands with
  | nil => rfl
  | cons p ps ih =>
    have hp : volumeAt spreads p = 0 := h p (by simp)
    have hrest : ∀ q ∈ ps, volumeAt spreads q = 0 := fun q hq => h q (by simp [hq])
    simpa [hp] using ih hrest

/-- Past its guard, `auction_fallback` scans only prices `p ≤ lowest_sell`:
at `p = lowest_sell` no buyer reaches `p` (all bids are below every ask),
and at `p < lowest_sell` no seller asks at most `p`, so the crossing volume
is zero at every candidate and the function always returns no trades. -/
theorem fallback_nil (spreads : List AgentSpread) : auction_fallback spreads = [] := by
  unfold auction_fallback
  by_cases h2 : spreads.length < 2
  · simp [h2]
  · simp only [if_neg h2]
    by_cases hle : listMin (spreads.map (fun s => s.sell_price))
        ≤ listMax (spreads.map (fun s => s.buy_price))
    · simp [hle]
    · have hblt : listMax (spreads.map (fun s => s.buy_price))
          < listMin (spreads.map (fun s => s.sell_price)) := not_le.mp hle
      have hcands : ∀ p ∈ fallbackCandidates
          (listMin (spreads.map (fun s => s.sell_price)))
          (listMax (spreads.map (fun s => s.buy_price))), volumeAt spreads p = 0 := by
        intro p hp
        unfold fallbackCandidates at hp
        rw [if_neg (by linarith)] at hp
        simp only [List.mem_map, List.mem_range] at hp
        obtain ⟨k, _, rfl⟩ := hp
        rcases Nat.eq_zero_or_pos k with hk0 | hk1
        · subst hk0
          have hbuyers : spreads.filter
              (fun s => decide (listMin (spreads.map (fun s => s.sell_price))
                - 1/20 * ((0 : Nat) : ℚ) ≤ s.buy_price)) = [] := by
            rw [List.filter_eq_nil_iff]
            intro s hs
            have hb : s.buy_price ≤ listMax (spreads.map (fun s => s.buy_price)) :=
              le_listMax (List.mem_map_of_mem _ hs)
            simp only [decide_eq_true_eq, not_le]
            push_cast
            linarith
          unfold volumeAt
          rw [hbuyers]
          simp
        · have hsellers : spreads.filter
              (fun s => decide (s.sell_price ≤ listMin (spreads.map (fun s => s.sell_price))
                - 1/20 * (k : ℚ))) = [] := by
            rw [List.filter_eq_nil_iff]
            intro s hs
            have hb : listMin (spreads.map (fun s => s.sell_price)) ≤ s.sell_price :=
              listMin_le (List.mem_map_of_mem _ hs)
            have hk : (1 : ℚ) ≤ (k : ℚ) := by exact_mod_cast hk1
            simp only [decide_eq_true_eq, not_le]
            nlinarith
          unfold volumeAt
          rw [hsellers]
          simp
      rw [if_neg hle, bestClearing_none hcands]

/-- In conduct_auction the executed trades are always exactly the Stage-1
trades: the Stage-2 fallback is consulted only when Stage 1 produced
nothing, and it always returns no trades. -/
lemma conductTrades_eq (u : Nat) (spreads : List AgentSpread) :
    conductTrades u spreads = match_orders spreads := by
  simp only [conductTrades]
  split_ifs with h
  · rw [fallback_nil, h.1]
  · rfl

/-! ### Structure of Stage-1 trades -/

lemma matchLoop_shape : ∀ (bs ss : List AgentSpread) (t : TradeTuple),
    t ∈ matchLoop bs ss →
    ∃ b ∈ bs, ∃ s ∈ ss,
      t = ⟨b.agent_id, s.agent_id, s.sell_price, 1⟩ ∧ s.sell_price ≤ b.buy_price := by
  intro bs
  induction bs with
  | nil => intro ss t ht; simp [matchLoop] at ht
  | cons b bs ih =>
    intro ss t ht
    cases ss with
    | nil => simp [matchLoop] at ht
    | cons s ss =>
      by_cases hc : s.sell_price ≤ b.buy_price
      · rw [matchLoop, if_pos hc] at ht
        rcases List.mem_cons.mp ht with h | h
        · exact ⟨b, by simp, s, by simp, h, hc⟩
        · obtain ⟨b2, hb2, s2, hs2, ht2, hc2⟩ := ih ss t h
          exact ⟨b2, by simp [hb2], s2, by simp [hs2], ht2, hc2⟩
      · rw [matchLoop, if_neg hc] at ht
        simp at ht

lemma matchLoop_buyers_nodup : ∀ (bs ss : List AgentSpread),
    (bs.map (fun b => b.agent_id)).Nodup →
    ((matchLoop bs ss).map (fun t => t.buyer)).Nodup := by
  intro bs
  induction bs with
  | nil => intro ss _; simp [matchLoop]
  | cons b bs ih =>
    intro ss hnd
    cases ss with
    | nil => simp [matchLoop]
    | cons s ss =>
      by_cases hc : s.sell_price ≤ b.buy_price
      · rw [matchLoop, if_pos hc]
        simp only [List.map_cons, List.nodup_cons]
        constructor
        · intro hmem
          simp only [List.mem_map] at hmem
          obtain ⟨t, ht, htb⟩ := hmem
          obtain ⟨b2, hb2, _, _, ht2, _⟩ := matchLoop_shape bs ss t ht
          have : b.agent_id ∈ bs.map (fun b => b.agent_id) := by
            rw [← htb, ht2]
            exact List.mem_map_of_mem _ hb2
          exact (List.nodup_cons.mp (by simpa using hnd)).1 this
        · exact ih ss (List.nodup_cons.mp (by simpa using hnd)).2
      · rw [matchLoop, if_neg hc]
        simp

lemma match_orders_shape {spreads : List AgentSpread} {t : TradeTuple}
    (h : t ∈ match_orders spreads) :
    ∃ b ∈ spreads, ∃ s ∈ spreads,
      t = ⟨b.agent_id, s.agent_id, s.sell_price, 1⟩ ∧ s.sell_price ≤ b.buy_price := by
  cases spreads with
  | nil => simp [match_orders] at h
  | cons x xs =>
    rw [match_orders] at h
    obtain ⟨b, hb, s, hs, ht, hc⟩ := matchLoop_shape _ _ t h
    refine ⟨b, ?_, s, ?_, ht, hc⟩
    · simpa [sortBuys] using hb
    · simpa [sortSells] using hs

lemma match_orders_buyers_nodup {spreads : List AgentSpread}
    (h : (spreads.map (fun s => s.agent_id)).Nodup) :
    ((match_orders spreads).map (fun t => t.buyer)).Nodup := by
  cases spreads with
  | nil => simp [match_orders]
  | cons x xs =>
    rw [match_orders]
    apply matchLoop_buyers_nodup
    have hperm : List.Perm ((sortBuys (x :: xs)).map (fun s => s.agent_id))
        ((x :: xs).map (fun s => s.agent_id)) :=
      (List.perm_insertionSort buyDesc (x :: xs)).map _
    exact hperm.nodup_iff.mpr h

/-! ### Stage 1 on auction-mode spreads (all sell prices zero) -/

lemma matchLoop_zero : ∀ (bs ss : List AgentSpread), bs.length = ss.length →
    (∀ b ∈ bs, 0 ≤ b.buy_price) → (∀ s ∈ ss, s.sell_price = 0) →
    (matchLoop bs ss).length = bs.length ∧ ∀ t ∈ matchLoop bs ss, t.price = 0 := by
  intro bs
  induction bs with
  | nil => intro ss _ _ _; simp [matchLoop]
  | cons b bs ih =>
    intro ss hlen hbuy hsell
    cases ss with
    | nil => simp at hlen
    | cons s ss =>
      have hs0 : s.sell_price = 0 := hsell s (by simp)
      have hb0 : 0 ≤ b.buy_price := hbuy b (by simp)
      have hc : s.sell_price ≤ b.buy_price := by rw [hs0]; exact hb0
      rw [matchLoop, if_pos hc]
      have hrest := ih ss (by simpa using hlen)
        (fun b2 hb2 => hbuy b2 (List.mem_cons_of_mem _ hb2))
        (fun s2 hs2 => hsell s2 (List.mem_cons_of_mem _ hs2))
      refine ⟨by simpa using hrest.1, ?_⟩
      intro t ht
      rcases List.mem_cons.mp ht with h | h
      · rw [h]; exact hs0
      · exact hrest.2 t h

/-! ### Determinism of the sorts on tie-free keys -/

lemma sortBuys_eq_of_perm {l l2 : List AgentSpread} (hp : List.Perm l l2)
    (hk : (l.map (fun s => s.buy_price)).Nodup) : sortBuys l = sortBuys l2 := by
  have h1 : List.Perm (sortBuys l) (sortBuys l2) :=
    (List.perm_insertionSort buyDesc l).trans
      (hp.trans (List.perm_insertionSort buyDesc l2).symm)
  have hs1 : (sortBuys l).Sorted buyDesc := List.sorted_insertionSort buyDesc l
  have hs2 : (sortBuys l2).Sorted buyDesc := List.sorted_insertionSort buyDesc l2
  have hk1 : ((sortBuys l).map (fun s => s.buy_price)).Nodup :=
    (((List.perm_insertionSort buyDesc l).map (fun s => s.buy_price)).nodup_iff).mpr hk
  have hk2 : ((sortBuys l2).map (fun s => s.buy_price)).Nodup := by
    refine (((List.perm_insertionSort buyDesc l2).map (fun s => s.buy_price)).nodup_iff).mpr ?_
    exact ((hp.map (fun s => s.buy_price)).nodup_iff).mp hk
  have hne1 : (sortBuys l).Pairwise (fun a b => a.buy_price ≠ b.buy_price) :=
    List.pairwise_map.mp hk1
  have hne2 : (sortBuys l2).Pairwise (fun a b => a.buy_price ≠ b.buy_price) :=
    List.pairwise_map.mp hk2
  have hstrict1 : (sortBuys l).Pairwise (fun a b => b.buy_price < a.buy_price) :=
    (hs1.and hne1).imp (fun h => lt_of_le_of_ne h.1 (Ne.symm h.2))
  have hstrict2 : (sortBuys l2).Pairwise (fun a b => b.buy_price < a.buy_price) :=
    (hs2.and hne2).imp (fun h => lt_of_le_of_ne h.1 (Ne.symm h.2))
  haveI : IsAntisymm AgentSpread (fun a b => b.buy_price < a.buy_price) :=
    ⟨fun _ _ h1 h2 => absurd h1 (lt_asymm h2)⟩
  exact List.eq_of_perm_of_sorted h1 hstrict1 hstrict2

lemma sortSells_eq_of_perm {l l2 : List AgentSpread} (hp : List.Perm l l2)
    (hk : (l.map (fun s => s.sell_price)).Nodup) : sortSells l = sortSells l2 := by
  have h1 : List.Perm (sortSells l) (sortSells l2) :=
    (List.perm_insertionSort sellAsc l).trans
      (hp.trans (List.perm_insertionSort sellAsc l2).symm)
  have hs1 : (sortSells l).Sorted sellAsc := List.sorted_insertionSort sellAsc l
  have hs2 : (sortSells l2).Sorted sellAsc := List.sorted_insertionSort sellAsc l2
  have hk1 : ((sortSells l).map (fun s => s.sell_price)).Nodup :=
    (((List.perm_insertionSort sellAsc l).map (fun s => s.sell_price)).nodup_iff).mpr hk
  have hk2 : ((sortSells l2).map (fun s => s.sell_price)).Nodup := by
    refine (((List.perm_insertionSort sellAsc l2).map (fun s => s.sell_price)).nodup_iff).mpr ?_
    exact ((hp.map (fun s => s.sell_price)).nodup_iff).mp hk
  have hne1 : (sortSells l).Pairwise (fun a b => a.sell_price ≠ b.sell_price) :=
    List.pairwise_map.mp hk1
  have hne2 : (sortSells l2).Pairwise (fun a b => a.sell_price ≠ b.sell_price) :=
    List.pairwise_map.mp hk2
  have hstrict1 : (sortSells l).Pairwise (fun a b => a.sell_price < b.sell_price) :=
    (hs1.and hne1).imp (fun h => lt_of_le_of_ne h.1 h.2)
  have hstrict2 : (sortSells l2).Pairwise (fun a b => a.sell_price < b.sell_price) :=
    (hs2.and hne2).imp (fun h => lt_of_le_of_ne h.1 h.2)
  haveI : IsAntisymm AgentSpread (fun a b => a.sell_price < b.sell_price) :=
    ⟨fun _ _ h1 h2 => absurd h1 (lt_asymm h2)⟩
  exact List.eq_of_perm_of_sorted h1 hstrict1 hstrict2

/-! ### Claim C8 -/

/-- C8 (corrected): Stage-1 matching is not order-independent in general —
the two sorts are stable on the arrival order and tie-break by nothing
else — but it is order-independent whenever the buy prices are pairwise
distinct and the sell prices are pairwise distinct: then each sorted order
is uniquely determined and match_orders depends only on the set of
spreads. -/
theorem c8_match_orders_perm_invariant_of_nodups
    (l l2 : List AgentSpread) (hp : List.Perm l l2)
    (hb : (l.map (fun s => s.buy_price)).Nodup)
    (hs : (l.map (fun s => s.sell_price)).Nodup) :
    match_orders l = match_orders l2 := by
  cases l with
  | nil =>
    have h2 : l2 = [] := hp.symm.eq_nil
    rw [h2]
  | cons x xs =>
    cases l2 with
    | nil => exact absurd hp.length_eq (by simp)
    | cons y ys =>
      rw [match_orders, match_orders]
      rw [show sortBuys (x :: xs) = sortBuys (y :: ys) from sortBuys_eq_of_perm hp hb,
          show sortSells (x :: xs) = sortSells (y :: ys) from sortSells_eq_of_perm hp hs]

/-- C8 counterexample: two spreads with tied buy prices and tied sell
prices; swapping their arrival order changes the trade list that
match_orders returns (the tie is broken by arrival order, not agent id). -/
theorem c8_order_dependence_counterexample :
    List.Perm [(⟨1, 50, 0⟩ : AgentSpread), ⟨2, 50, 0⟩] [⟨2, 50, 0⟩, ⟨1, 50, 0⟩]
    ∧ match_orders [(⟨1, 50, 0⟩ : AgentSpread), ⟨2, 50, 0⟩]
        ≠ match_orders [⟨2, 50, 0⟩, ⟨1, 50, 0⟩] := by
  constructor
  · decide
  · decide

/-- Witness for C8: a concrete permuted pair with tie-free prices on which
the amended theorem applies. -/
theorem c8_witness :
    match_orders [(⟨1, 60, 70⟩ : AgentSpread), ⟨2, 50, 80⟩]
      = match_orders [⟨2, 50, 80⟩, ⟨1, 60, 70⟩] :=
  c8_match_orders_perm_invariant_of_nodups _ _ (by decide) (by decide) (by decide)

/-! ### Claim C2 -/

/-- C2 (confirmed): in an initial-auction event the parser emits every
spread with sell_price = 0; on any nonempty list of such spreads with
non-negative buy prices, Stage 1 emits one trade per spread, every trade
executes at price 0, the Stage-2 fallback branch is not taken, and the
discovered market price is 0. -/
theorem c2_auction_mode_spreads_and_stage1
    (spreads : List AgentSpread) (hne : spreads ≠ [])
    (hz : ∀ s ∈ spreads, s.sell_price = 0 ∧ 0 ≤ s.buy_price) :
    (∀ (aid : Nat) (bm sm cash : Option ℚ) (s : AgentSpread),
        mkSpread 0 aid bm sm cash = some s → s.sell_price = 0)
    ∧ conductTrades 0 spreads = match_orders spreads
    ∧ (match_orders spreads).length = spreads.length
    ∧ (∀ t ∈ match_orders spreads, t.price = 0)
    ∧ marketPrice (conductTrades 0 spreads) = some 0 := by
  have hparse : ∀ (aid : Nat) (bm sm cash : Option ℚ) (s : AgentSpread),
      mkSpread 0 aid bm sm cash = some s → s.sell_price = 0 := by
    intro aid bm sm cash s h
    cases bm with
    | none => simp [mkSpread] at h
    | some braw =>
      simp [mkSpread] at h
      subst h
      rfl
  have hkey : (match_orders spreads).length = spreads.length
      ∧ ∀ t ∈ match_orders spreads, t.price = 0 := by
    cases spreads with
    | nil => exact absurd rfl hne
    | cons x xs =>
      rw [match_orders]
      have hlb : (sortBuys (x :: xs)).length = (x :: xs).length :=
        (List.perm_insertionSort buyDesc (x :: xs)).length_eq
      have hls : (sortSells (x :: xs)).length = (x :: xs).length :=
        (List.perm_insertionSort sellAsc (x :: xs)).length_eq
      have h := matchLoop_zero (sortBuys (x :: xs)) (sortSells (x :: xs))
        (by rw [hlb, hls])
        (fun b hb => (hz b (by simpa [sortBuys] using hb)).2)
        (fun s hs => (hz s (by simpa [sortSells] using hs)).1)
      exact ⟨by rw [h.1, hlb], h.2⟩
  have hct := conductTrades_eq 0 spreads
  refine ⟨hparse, hct, hkey.1, hkey.2, ?_⟩
  rw [hct]
  have hnt : match_orders spreads ≠ [] := by
    intro h0
    apply hne
    have := hkey.1
    rw [h0] at this
    exact List.length_eq_zero.mp this.symm
  cases hmo : match_orders spreads with
  | nil => exact absurd hmo hnt
  | cons t ts =>
    rw [marketPrice]
    have hzero : ((t :: ts).map (fun t => t.price)).sum = 0 := by
      apply List.sum_eq_zero
      intro x hx
      obtain ⟨t2, ht2, rfl⟩ := List.mem_map.mp hx
      exact hkey.2 t2 (hmo ▸ ht2)
    rw [hzero]
    simp

/-- Witness for C2 at a single concrete auction-mode spread. -/
theorem c2_witness :
    marketPrice (conductTrades 0 [(⟨1, 10, 0⟩ : AgentSpread)]) = some 0 :=
  (c2_auction_mode_spreads_and_stage1 [⟨1, 10, 0⟩] (by decide)
    (by norm_num)).2.2.2.2

/-! ### Claim C5 -/

/-- C5 (confirmed): scenario S1 — spreads A(buy 70, sell 95),
B(buy 60, sell 80), C(buy 50, sell 65) produce exactly one Stage-1 trade,
A buys from C at price 65 quantity 1, and the market price recorded on the
goal is 65, the mean of the executed trade prices. -/
theorem c5_s1_scenario :
    match_orders [(⟨1, 70, 95⟩ : AgentSpread), ⟨2, 60, 80⟩, ⟨3, 50, 65⟩] = [⟨1, 3, 65, 1⟩]
    ∧ marketPrice (match_orders [(⟨1, 70, 95⟩ : AgentSpread), ⟨2, 60, 80⟩, ⟨3, 50, 65⟩])
        = some 65
    ∧ (recordMarketPrice ⟨1, "goal", "2026-01-01", none, "active", 100, none, none⟩
        (match_orders [(⟨1, 70, 95⟩ : AgentSpread), ⟨2, 60, 80⟩, ⟨3, 50, 65⟩])).base_price
        = some 65 := by
  have h1 : match_orders [(⟨1, 70, 95⟩ : AgentSpread), ⟨2, 60, 80⟩, ⟨3, 50, 65⟩]
      = [⟨1, 3, 65, 1⟩] := by decide
  refine ⟨h1, ?_, ?_⟩
  · rw [h1]
    norm_num [marketPrice]
  · rw [h1]
    norm_num [recordMarketPrice, marketPrice]

/-! ### Cash non-negativity through settlement -/

lemma settle_trades_cash_nonneg (g : Nat) :
    ∀ (ts : List TradeTuple) (store : List Agent),
      (∀ a ∈ store, 0 ≤ a.cash_balance) →
      ((ts.map (fun t => t.buyer)).Nodup) →
      (∀ t ∈ ts, 0 ≤ t.price * t.qty) →
      (∀ t ∈ ts, ∀ a ∈ store, a.id = t.buyer → t.price * t.qty ≤ a.cash_balance) →
      ∀ a ∈ (settle_trades g ts store).1, 0 ≤ a.cash_balance := by
  intro ts
  induction ts with
  | nil =>
    intro store hcash _ _ _ a ha
    exact hcash a (by simpa [settle_trades] using ha)
  | cons t ts ih =>
    intro store hcash hnd hpos hbound a ha
    simp only [settle_trades] at ha
    have hnotin : t.buyer ∉ ts.map (fun t => t.buyer) :=
      (List.nodup_cons.mp (by simpa using hnd)).1
    have hnd2 : ((ts.map (fun t => t.buyer))).Nodup :=
      (List.nodup_cons.mp (by simpa using hnd)).2
    have hpos2 : ∀ t2 ∈ ts, 0 ≤ t2.price * t2.qty :=
      fun t2 h2 => hpos t2 (List.mem_cons_of_mem _ h2)
    cases hb : get_agent store t.buyer with
    | none =>
      have hstep : (settle_one g store t).1 = store := by
        cases hs : get_agent store t.seller <;> simp [settle_one, hb, hs]
      rw [hstep] at ha
      exact ih store hcash hnd2 hpos2
        (fun t2 h2 x hx hxid => hbound t2 (List.mem_cons_of_mem _ h2) x hx hxid) a ha
    | some buyer =>
      cases hs : get_agent store t.seller with
      | none =>
        have hstep : (settle_one g store t).1 = store := by
          simp [settle_one, hb, hs]
        rw [hstep] at ha
        exact ih store hcash hnd2 hpos2
          (fun t2 h2 x hx hxid => hbound t2 (List.mem_cons_of_mem _ h2) x hx hxid) a ha
      | some seller =>
        have hbuyer_id : buyer.id = t.buyer := get_agent_id hb
        have hbuyer_mem : buyer ∈ store := get_agent_mem hb
        have hseller_id : seller.id = t.seller := get_agent_id hs
        have hseller_mem : seller ∈ store := get_agent_mem hs
        have hamt0 : 0 ≤ t.price * t.qty := hpos t (by simp)
        have hamtle : t.price * t.qty ≤ buyer.cash_balance :=
          hbound t (by simp) buyer hbuyer_mem hbuyer_id
        have hstep : (settle_one g store t).1 =
            save_agent
              (save_agent store
                { buyer with
                  cash_balance := buyer.cash_balance - t.price * t.qty
                  token_holdings :=
                    dset buyer.token_holdings g (dget buyer.token_holdings g + t.qty) })
              { seller with
                cash_balance := seller.cash_balance + t.price * t.qty
                token_holdings :=
                  dset seller.token_holdings g (dget seller.token_holdings g - t.qty) } := by
          simp [settle_one, hb, hs]
        rw [hstep] at ha
        apply ih _ ?hcash2 hnd2 hpos2 ?hbound2 a ha
        case hcash2 =>
          intro x hx
          rcases mem_save_agent hx with rfl | hx2
          · show 0 ≤ seller.cash_balance + t.price * t.qty
            exact add_nonneg (hcash seller hseller_mem) hamt0
          · rcases mem_save_agent hx2 with rfl | hx3
            · show 0 ≤ buyer.cash_balance - t.price * t.qty
              linarith
            · exact hcash x hx3
        case hbound2 =>
          intro t2 ht2 x hx hxid
          rcases mem_save_agent hx with rfl | hx2
          · have hxid2 : seller.id = t2.buyer := by simpa using hxid
            have h1 : t2.price * t2.qty ≤ seller.cash_balance :=
              hbound t2 (List.mem_cons_of_mem _ ht2) seller hseller_mem hxid2
            show t2.price * t2.qty ≤ seller.cash_balance + t.price * t.qty
            linarith
          · rcases mem_save_agent hx2 with rfl | hx3
            · exfalso
              apply hnotin
              have hxid2 : buyer.id = t2.buyer := by simpa using hxid
              have : t2.buyer = t.buyer := by rw [← hxid2, hbuyer_id]
              rw [← this]
              exact List.mem_map_of_mem _ ht2
            · exact hbound t2 (List.mem_cons_of_mem _ ht2) x hx3 hxid

/-! ### Claim C9 -/

/-- C9 (confirmed): if every agent's cash balance is non-negative and every
spread of the event quotes a buy price at most its agent's cash balance
(the parser caps it so) — with one spread per agent and the parser's
non-negative sell prices — then settling the trades produced by Stage 1 or
Stage 2 leaves every agent's cash balance non-negative. -/
theorem c9_cash_nonneg_after_settlement
    (store : List Agent) (spreads : List AgentSpread) (g u : Nat)
    (hcash : ∀ a ∈ store, 0 ≤ a.cash_balance)
    (hids : (spreads.map (fun s => s.agent_id)).Nodup)
    (hsell : ∀ s ∈ spreads, 0 ≤ s.sell_price)
    (hbuy : ∀ s ∈ spreads, ∀ a ∈ store, a.id = s.agent_id → s.buy_price ≤ a.cash_balance) :
    ∀ a ∈ (settle_trades g (conductTrades u spreads) store).1, 0 ≤ a.cash_balance := by
  rw [conductTrades_eq]
  apply settle_trades_cash_nonneg g (match_orders spreads) store hcash
    (match_orders_buyers_nodup hids) ?_ ?_
  · intro t ht
    obtain ⟨b, hbm, s, hsm, rfl, hc⟩ := match_orders_shape ht
    simpa using hsell s hsm
  · intro t ht x hx hxid
    obtain ⟨b, hbm, s, hsm, rfl, hc⟩ := match_orders_shape ht
    have h2 : b.buy_price ≤ x.cash_balance := hbuy b hbm x hx (by simpa using hxid)
    show s.sell_price * 1 ≤ x.cash_balance
    linarith

/-- Witness for C9: two agents, two capped spreads, one executed trade;
the buyer ends at cash 50 ≥ 0. -/
theorem c9_witness : 0 ≤ (Agent.mk 1 "A" 50 [(1, 1)]).cash_balance :=
  c9_cash_nonneg_after_settlement
    [⟨1, "A", 100, []⟩, ⟨2, "B", 50, []⟩]
    [⟨1, 60, 80⟩, ⟨2, 40, 50⟩] 1 2
    (by decide) (by decide) (by decide) (by decide)
    (Agent.mk 1 "A" 50 [(1, 1)])
    (by norm_num [conductTrades, match_orders, sortBuys, sortSells, buyDesc, sellAsc,
      matchLoop, auction_fallback, settle_trades, settle_one, get_agent, save_agent,
      dget, dset])

/-! ### Resolution payouts -/

lemma resolveAgent_cash (g : Nat) (oc : String) (a : Agent) :
    (resolveAgent g oc a).cash_balance
      = a.cash_balance
        + (if oc = "success" then (100 : ℚ) else -100) * dget a.token_holdings g := by
  unfold resolveAgent
  by_cases h : dget a.token_holdings g = 0
  · simp [h]
  · rw [if_neg h]
    by_cases ho : oc = "success" <;> simp [ho] <;> ring

lemma resolve_settlement_cash_sum (g : Nat) (oc : String) (store : List Agent) :
    ((resolve_goal_settlement g oc store).map (fun a => a.cash_balance)).sum
      = (store.map (fun a => a.cash_balance)).sum
        + (if oc = "success" then (100 : ℚ) else -100)
          * (store.map (fun a => dget a.token_holdings g)).sum := by
  induction store with
  | nil => simp [resolve_goal_settlement]
  | cons a s ih =>
    simp only [resolve_goal_settlement, List.map_cons, List.sum_cons] at ih ⊢
    rw [resolveAgent_cash, ih]
    ring

/-! ### Claim C6 -/

/-- C6 (confirmed): resolving a goal pays every agent with a non-zero
position pos exactly pos*100 on success and -(pos*100) on failure, zeroes
the affected holding, leaves zero-position agents untouched, and when the
positions sum to zero the total cash across agents is unchanged. -/
theorem c6_resolution_payouts (store : List Agent) (g : Nat) (oc : String)
    (hsum : (store.map (fun a => dget a.token_holdings g)).sum = 0) :
    (∀ (i : Nat) (hi : i < store.length)
        (hi2 : i < (resolve_goal_settlement g oc store).length),
      (dget store[i].token_holdings g ≠ 0 →
        ((resolve_goal_settlement g oc store)[i].cash_balance
          = store[i].cash_balance
            + (if oc = "success" then dget store[i].token_holdings g * 100
               else -(dget store[i].token_holdings g * 100))
        ∧ dget ((resolve_goal_settlement g oc store)[i]).token_holdings g = 0))
      ∧ (dget store[i].token_holdings g = 0 →
          (resolve_goal_settlement g oc store)[i] = store[i]))
    ∧ ((resolve_goal_settlement g oc store).map (fun a => a.cash_balance)).sum
        = (store.map (fun a => a.cash_balance)).sum := by
  constructor
  · intro i hi hi2
    have hget : (resolve_goal_settlement g oc store)[i]
        = resolveAgent g oc store[i] := by
      simp [resolve_goal_settlement]
    constructor
    · intro hpos
      rw [hget]
      constructor
      · unfold resolveAgent
        rw [if_neg hpos]
        by_cases ho : oc = "success" <;> simp [ho]
      · unfold resolveAgent
        rw [if_neg hpos]
        exact dget_dset_self _ _ _
    · intro hpos
      rw [hget]
      unfold resolveAgent
      rw [if_pos hpos]
  · rw [resolve_settlement_cash_sum, hsum]
    ring

/-- Witness for C6: agents A(+2 tokens, cash 860) and B(-2 tokens,
cash 1140); resolving keeps the total cash 2000. -/
theorem c6_witness :
    ((resolve_goal_settlement 5 "success"
        [(⟨1, "A", 860, [(5, 2)]⟩ : Agent), ⟨2, "B", 1140, [(5, -2)]⟩]).map
      (fun a => a.cash_balance)).sum
      = ([(⟨1, "A", 860, [(5, 2)]⟩ : Agent), ⟨2, "B", 1140, [(5, -2)]⟩].map
          (fun a => a.cash_balance)).sum :=
  (c6_resolution_payouts
    [⟨1, "A", 860, [(5, 2)]⟩, ⟨2, "B", 1140, [(5, -2)]⟩] 5 "success"
    (by norm_num [dget])).2

/-! ### Claim C7 -/

/-- C7 (confirmed): the resolve endpoint rejects a goal whose status is
already resolved with HTTP 400 before any mutation, so the goal store and
every agent are exactly as before the call. -/
theorem c7_resolve_twice_rejected (st : SysState) (gid : Nat) (oc : String) (g : Goal)
    (hg : get_goal st.goals gid = some g) (hres : g.status = "resolved") :
    resolve_goal st gid oc = (Except.error 400, st) := by
  unfold resolve_goal
  simp only [hg]
  by_cases hoc : ¬(oc = "success" ∨ oc = "failure")
  · rw [if_pos hoc]
  · rw [if_neg hoc, if_pos hres]

/-- Witness for C7: a concrete already-resolved goal; a second resolution
returns 400 and the state is untouched. -/
theorem c7_witness :
    resolve_goal
      ⟨[⟨1, "run", "2026-01-01", none, "resolved", 100, some "success", some 65⟩],
       [⟨1, "A", 1000, [(1, 2)]⟩]⟩ 1 "failure"
      = (Except.error 400,
          ⟨[⟨1, "run", "2026-01-01", none, "resolved", 100, some "success", some 65⟩],
           [⟨1, "A", 1000, [(1, 2)]⟩]⟩) :=
  c7_resolve_twice_rejected _ 1 "failure"
    ⟨1, "run", "2026-01-01", none, "resolved", 100, some "success", some 65⟩
    (by decide) rfl

/-! ### Claim C1 -/

/-- C1 (code bug): a Stage-1 self-trade is reachable (a single spread whose
bid crosses its own ask), and settling it does not preserve the per-goal
token sum: buyer and seller are loaded as two copies of the same record and
the seller's save overwrites the buyer's, so the sum drops from 0 to -1. -/
theorem c1_token_conservation_broken_by_self_trade :
    match_orders [(⟨1, 80, 70⟩ : AgentSpread)] = [⟨1, 1, 70, 1⟩]
    ∧ (([(⟨1, "Alice", 1000, []⟩ : Agent)]).map (fun a => dget a.token_holdings 7)).sum = 0
    ∧ (((settle_trades 7 [⟨1, 1, 70, 1⟩] [(⟨1, "Alice", 1000, []⟩ : Agent)]).1).map
        (fun a => dget a.token_holdings 7)).sum = -1 := by
  refine ⟨by decide, by norm_num [dget], ?_⟩
  norm_num [settle_trades, settle_one, get_agent, save_agent, dget, dset]

/-! ### Claim C4 -/

/-- C4 (code bug): settling a Stage-1 self-trade is not a no-op transfer.
The seller copy's save overwrites the buyer copy's, leaving the agent with
cash 1000 + 65 and holding -1 for the goal, while a Trade record at the
sell price is still appended. -/
theorem c4_self_trade_is_not_a_noop :
    match_orders [(⟨2, 90, 65⟩ : AgentSpread)] = [⟨2, 2, 65, 1⟩]
    ∧ (settle_trades 9 [⟨2, 2, 65, 1⟩] [(⟨2, "Bob", 1000, []⟩ : Agent)]).1
        = [⟨2, "Bob", 1065, [(9, -1)]⟩]
    ∧ (settle_trades 9 [⟨2, 2, 65, 1⟩] [(⟨2, "Bob", 1000, []⟩ : Agent)]).2
        = [⟨2, 2, 65, 1⟩] := by
  refine ⟨by decide, ?_, ?_⟩ <;>
    norm_num [settle_trades, settle_one, get_agent, save_agent, dget, dset]

/-! ### Claim C3 -/

/-- C3 counterexample: on scenario S2 (A buy 40 sell 90, B buy 30 sell 80,
C buy 20 sell 70) Stage 1 yields no trades, and the Stage-2 fallback does
NOT produce the claimed single trade of A buying from C at price 40. -/
theorem c3_s2_scenario_counterexample :
    match_orders [(⟨1, 40, 90⟩ : AgentSpread), ⟨2, 30, 80⟩, ⟨3, 20, 70⟩] = []
    ∧ auction_fallback [(⟨1, 40, 90⟩ : AgentSpread), ⟨2, 30, 80⟩, ⟨3, 20, 70⟩]
        ≠ [⟨1, 3, 40, 1⟩] := by
  refine ⟨by decide, ?_⟩
  rw [fallback_nil]
  simp

/-- C3 (corrected): on scenario S2, Stage 1 produces no trades and the
Stage-2 fallback also produces no trades — no scanned candidate price has
positive crossed volume, so no clearing price is found and the event ends
with an empty trade list. -/
theorem c3_s2_no_trades :
    match_orders [(⟨1, 40, 90⟩ : AgentSpread), ⟨2, 30, 80⟩, ⟨3, 20, 70⟩] = []
    ∧ auction_fallback [(⟨1, 40, 90⟩ : AgentSpread), ⟨2, 30, 80⟩, ⟨3, 20, 70⟩] = []
    ∧ conductTrades 0 [(⟨1, 40, 90⟩ : AgentSpread), ⟨2, 30, 80⟩, ⟨3, 20, 70⟩] = [] := by
  refine ⟨by decide, fallback_nil _, ?_⟩
  rw [conductTrades_eq]
  decide

/-! ### Claim C10 -/

/-- C10 counterexample: with one existing agent and num_agents = 3 the
roster block creates nothing — the auction proceeds with a single agent,
contradicting the claim that agents are created until num_agents exist. -/
theorem c10_partial_roster_not_topped_up :
    ensure_agents 3 [(⟨1, "Solo", 500, []⟩ : Agent)] 10 = [⟨1, "Solo", 500, []⟩]
    ∧ (ensure_agents 3 [(⟨1, "Solo", 500, []⟩ : Agent)] 10).length ≠ 3 := by
  constructor <;> decide

/-- C10 (corrected): roster agents are auto-created only when no agents
exist at all: from an empty store, exactly num_agents agents named from the
roster (with the "Agent " prefix), each with 1000 cash and empty holdings,
are created; a nonempty store is left unchanged however short it is. -/
theorem c10_seeding_only_from_empty (num : Nat) (store : List Agent) (next_id : Nat) :
    (store ≠ [] → ensure_agents num store next_id = store)
    ∧ (store = [] →
        (ensure_agents num store next_id).length = num
        ∧ ∀ i < num, (ensure_agents num store next_id).getD i default
            = ⟨next_id + i, "Agent " ++ agent_roster.getD i "", 1000, []⟩) := by
  constructor
  · intro hne
    unfold ensure_agents
    split_ifs with h1 h2
    · exact absurd (List.length_eq_zero.mp h2) hne
    · rfl
    · rfl
  · intro he
    subst he
    unfold ensure_agents
    by_cases hn : 0 < num
    · simp only [List.length_nil]
      rw [if_pos hn]
      simp only [if_true]
      refine ⟨by simp, ?_⟩
      intro i hi
      have hlen : i < ((List.range num).map (fun i =>
          (⟨next_id + i, "Agent " ++ agent_roster.getD i "", 1000, []⟩ : Agent))).length := by
        simpa using hi
      rw [List.getD_eq_getElem _ _ hlen]
      simp [List.getElem_map, List.getElem_range]
    · have h0 : num = 0 := by omega
      subst h0
      simp only [List.length_nil]
      rw [if_neg (lt_irrefl 0)]
      refine ⟨rfl, ?_⟩
      intro i hi
      exact absurd hi (Nat.not_lt_zero i)

/-- Witness for C10: from an empty store with num_agents = 3 and next id
10, three roster agents are created and the first is Agent Alice with cash
1000 and no holdings. -/
theorem c10_witness :
    (ensure_agents 3 ([] : List Agent) 10).length = 3
    ∧ (ensure_agents 3 ([] : List Agent) 10).getD 0 default
        = ⟨10, "Agent Alice", 1000, []⟩ := by
  refine ⟨((c10_seeding_only_from_empty 3 [] 10).2 rfl).1, ?_⟩
  have h := ((c10_seeding_only_from_empty 3 [] 10).2 rfl).2 0 (by omega)
  rw [h]
  rfl
